import Mathlib

/-!
Shallow embedding of `src/converters/revolutConverter.ts` (Import-To-Ghostfolio).

JavaScript numbers that flow through the converter are modelled as `JVal`:
either `undef` (a field absent from the parsed record), `nan`
(`parseFloat` failed), or an exact rational `num q` (the converter only
manipulates decimal money strings, so rationals model the parsed values;
IEEE rounding is uniform on both sides of every claim and is not modelled).
External collaborators (csv-parse, dayjs, the security service, the progress
bar) are black boxes: the tokenizer's outcome and the lookup service are
parameters of the pipeline, dayjs-formatted dates are carried as the raw
date strings, and progress calls are not observable state.
-/

attribute [local semireducible] Rat.mul Rat.inv Rat.add Rat.sub

/-- Exact list-prefix test on characters (`==` on each position). -/
def listPrefixOf : List Char → List Char → Bool
  | [], _ => true
  | _ :: _, [] => false
  | a :: as, b :: bs => a == b && listPrefixOf as bs

/-- Substring occurrence test on character lists, used to model
JavaScript `s.indexOf(pat) > -1`. -/
def listInfixOf (pat : List Char) : List Char → Bool
  | [] => pat.isEmpty
  | b :: bs => listPrefixOf pat (b :: bs) || listInfixOf pat bs

/-- `strContains s pat` models JavaScript `s.indexOf(pat) > -1`. -/
def strContains (s pat : String) : Bool := listInfixOf pat.data s.data

/-- A character of a numeric token: the class `[\d.,]` used by the
converter's regexes. -/
def isNumTokChar (c : Char) : Bool := c.isDigit || c == '.' || c == ','

/-- Worker for `numTokens`: scans the list, accumulating the current run of
`[\d.,]` characters (reversed) in `acc`. -/
def numTokensAux : List Char → List Char → List String
  | acc, [] => if acc.isEmpty then [] else [acc.reverse.asString]
  | acc, c :: cs =>
    if isNumTokChar c then numTokensAux (c :: acc) cs
    else if acc.isEmpty then numTokensAux [] cs
    else acc.reverse.asString :: numTokensAux [] cs

/-- `numTokens s` models `s.match(/([\d.,]+)/g)`: the maximal runs of
digits, dots and commas, in order ( `[]` models the `null` result). -/
def numTokens (s : String) : List String := numTokensAux [] s.data

/-- Worker for `removeFirstComma` on character lists. -/
def rfcList : List Char → List Char
  | [] => []
  | c :: cs => if c = ',' then cs else c :: rfcList cs

/-- `removeFirstComma s` models JavaScript `s.replace(",", "")`: with a plain
string pattern, `replace` removes only the first occurrence. -/
def removeFirstComma (s : String) : String := (rfcList s.data).asString

/-- `stripDollar s` models `s.replace(/[$]/g, "")`: every literal dollar sign
is removed. -/
def stripDollar (s : String) : String := (s.data.filter (fun c => c ≠ '$')).asString

/-- JavaScript whitespace as far as the converter's money strings are
concerned (the full WhiteSpace/LineTerminator classes add exotic code
points no claim touches). -/
def isJsWs (c : Char) : Bool := c == ' ' || c == '\t' || c == '\n' || c == '\r'

/-- ASCII lowercasing of one character, the model of what
`toLocaleLowerCase` does to the converter's labels. -/
def charToLower (c : Char) : Char :=
  if 'A' ≤ c ∧ c ≤ 'Z' then Char.ofNat (c.toNat + 32) else c

/-- ASCII uppercasing of one character, the model of `toLocaleUpperCase`. -/
def charToUpper (c : Char) : Char :=
  if 'a' ≤ c ∧ c ≤ 'z' then Char.ofNat (c.toNat - 32) else c

/-- Model of JavaScript `s.toLocaleLowerCase()` on the converter's ASCII
action labels. -/
def strToLower (s : String) : String := (s.data.map charToLower).asString

/-- Model of JavaScript `s.toLocaleUpperCase()` on the stripped currency
symbols. -/
def strToUpper (s : String) : String := (s.data.map charToUpper).asString

/-- Model of JavaScript `s.trim()`: whitespace removed from both ends. -/
def strTrim (s : String) : String :=
  (((s.data.dropWhile isJsWs).reverse.dropWhile isJsWs).reverse).asString

/-- Decimal value of a digit run. -/
def digitsToNat (l : List Char) : Nat := l.foldl (fun a c => a * 10 + (c.toNat - 48)) 0

/-- Parse an unsigned decimal significand (`digits`, `digits.digits`,
`.digits`): the ECMAScript `StrUnsignedDecimalLiteral` shapes the converter
can meet. Returns the value and the unconsumed suffix, or `none` when no
digit is found (the `NaN` outcome). -/
def parseUnsigned (l : List Char) : Option (ℚ × List Char) :=
  let ip := l.takeWhile Char.isDigit
  let r1 := l.dropWhile Char.isDigit
  match r1 with
  | c :: r2 =>
    if c = '.' then
      let fp := r2.takeWhile Char.isDigit
      let r3 := r2.dropWhile Char.isDigit
      if ip.isEmpty ∧ fp.isEmpty then none
      else some ((digitsToNat ip : ℚ) + (digitsToNat fp : ℚ) / ((10 : ℚ) ^ fp.length), r3)
    else if ip.isEmpty then none else some ((digitsToNat ip : ℚ), c :: r2)
  | [] => if ip.isEmpty then none else some ((digitsToNat ip : ℚ), [])

/-- Parse the optional exponent part following the significand; a malformed
exponent contributes nothing, as in `parseFloat("1e")`. -/
def parseExpPart (l : List Char) : ℤ :=
  match l with
  | [] => 0
  | c :: rest =>
    if c = 'e' ∨ c = 'E' then
      match rest with
      | [] => 0
      | d :: r2 =>
        if d = '-' then
          let ds := r2.takeWhile Char.isDigit
          if ds.isEmpty then 0 else -(digitsToNat ds : ℤ)
        else if d = '+' then
          let ds := r2.takeWhile Char.isDigit
          if ds.isEmpty then 0 else (digitsToNat ds : ℤ)
        else
          let ds := (d :: r2).takeWhile Char.isDigit
          if ds.isEmpty then 0 else (digitsToNat ds : ℤ)
    else 0

/-- Significand with optional sign, then exponent. -/
def parseSigned (l : List Char) : Option ℚ :=
  match l with
  | [] => none
  | c :: r =>
    if c = '-' then
      (parseUnsigned r).map (fun p => -(p.1 * (10 : ℚ) ^ parseExpPart p.2))
    else if c = '+' then
      (parseUnsigned r).map (fun p => p.1 * (10 : ℚ) ^ parseExpPart p.2)
    else
      (parseUnsigned (c :: r)).map (fun p => p.1 * (10 : ℚ) ^ parseExpPart p.2)

/-- `parseFloatQ` models JavaScript `parseFloat` on the decimal strings the
converter meets: skip leading whitespace, optional sign, longest decimal
significand, optional exponent; everything after the parsed prefix is
ignored; `none` models `NaN` (the `Infinity` keyword is not modelled). -/
def parseFloatQ (s : String) : Option ℚ := parseSigned (s.data.dropWhile isJsWs)

/-- A JavaScript numeric value as the converter stores it in a record field:
absent (`undefined`), `NaN`, or an exact number. -/
inductive JVal where
  | undef : JVal
  | nan : JVal
  | num : ℚ → JVal
deriving DecidableEq, Repr

/-- `parseFloat` producing a stored JavaScript number. -/
def parseFloatJ (s : String) : JVal :=
  match parseFloatQ s with
  | none => JVal.nan
  | some q => JVal.num q

/-- JavaScript `a ?? b`: `b` only when `a` is null/undefined (`NaN` is NOT
nullish). -/
def jnullish : JVal → JVal → JVal
  | JVal.undef, b => b
  | a, _ => a

/-- JavaScript `Math.abs` on a stored value (`Math.abs(undefined)` is `NaN`). -/
def jabs : JVal → JVal
  | JVal.num q => JVal.num |q|
  | _ => JVal.nan

/-- `detectCurrency` (revolutConverter.ts:228-245): remove every `[\d.,]+`
run, trim, uppercase, then map the remaining symbol to an ISO code,
defaulting to EUR. -/
def detectCurrency (value : String) : String :=
  let currency := strToUpper (strTrim ((value.data.filter (fun c => !isNumTokChar c)).asString))
  if currency = "€" then "EUR"
  else if currency = "$" then "USD"
  else if currency = "£" then "GBP"
  else if currency = "SEK" then "SEK"
  else "EUR"

/-- The invest-schema `type` cell mapping inside the `cast` callback
(revolutConverter.ts:53-68): case-insensitive substring rules, first match
wins, unmatched labels pass through unchanged. -/
def mapActionType (v : String) : String :=
  let action := strToLower v
  if strContains action "buy" || strContains action "stock split" then "buy"
  else if strContains action "sell" then "sell"
  else if strContains action "dividend" then "dividend"
  else if strContains action "fee" then "fee"
  else v

/-- The invest-schema numeric cell coercion (revolutConverter.ts:71-79):
empty cell becomes 0, otherwise strip `$` signs, trim, `parseFloat`. -/
def investNumCoerce (s : String) : JVal :=
  if s = "" then JVal.num 0
  else parseFloatJ (strTrim (stripDollar s))

/-- A parsed record as `processRevolutFile` receives it. Fields missing from
a schema are `JVal.undef` (numbers) or `none` (the ticker); the invest
schema fills ticker/pricePerShare/totalAmount, the crypto schema fills
price/value/fees. `accountId` (process environment) and the dayjs date
formatting are external; the date travels as the raw string. -/
structure RevolutRecord where
  date : String
  type : String
  ticker : Option String
  symbol : String
  currency : String
  quantity : JVal
  pricePerShare : JVal
  totalAmount : JVal
  price : JVal
  value : JVal
  fees : JVal
deriving DecidableEq, Repr

/-- A raw invest-schema row: the string cells of one CSV line under the
header `date,type,ticker,symbol,quantity,pricePerShare,totalAmount,currency`. -/
structure InvestRawRecord where
  date : String
  type : String
  ticker : String
  symbol : String
  quantity : String
  pricePerShare : String
  totalAmount : String
  currency : String
deriving DecidableEq, Repr

/-- A raw crypto-schema row: the string cells of one 7-column CSV line
(`symbol,type,quantity,price,value,fees,date`). -/
structure CryptoRawRecord where
  date : String
  type : String
  symbol : String
  quantity : String
  price : String
  value : String
  fees : String
deriving DecidableEq, Repr

/-- The per-cell `cast` of `processInvestFileContents`
(revolutConverter.ts:44-82) applied to a whole row: `GBX` currency is
aliased to `GBp`, the type label goes through `mapActionType`, and the three
numeric columns through `investNumCoerce`; the crypto-only fields stay
`undefined`. -/
def investCoerce (r : InvestRawRecord) : RevolutRecord :=
  { date := r.date
    type := mapActionType r.type
    ticker := some r.ticker
    symbol := r.symbol
    currency := if r.currency = "GBX" then "GBp" else r.currency
    quantity := investNumCoerce r.quantity
    pricePerShare := investNumCoerce r.pricePerShare
    totalAmount := investNumCoerce r.totalAmount
    price := JVal.undef
    value := JVal.undef
    fees := JVal.undef }

/-- The crypto `on_record` action coercion (revolutConverter.ts:97-98):
exact case-insensitive `buy`/`sell`, anything else becomes `dividend`. -/
def cryptoMapType (ty : String) : String :=
  let t := strToLower ty
  if t = "buy" then "buy" else if t = "sell" then "sell" else "dividend"

/-- The crypto price coercion (revolutConverter.ts:102-103): first `[\d.,]+`
token with an explicit `["0"]` fallback, first comma removed, `parseFloat`;
an empty source field yields 0. Total for every string. -/
def cryptoPriceCoerce (s : String) : JVal :=
  let tok := (numTokens s).headD "0"
  if s = "" then JVal.num 0 else parseFloatJ (removeFirstComma tok)

/-- The crypto value/fees coercion (revolutConverter.ts:105-109): as for the
price but WITHOUT the `["0"]` fallback — when the field is non-empty and the
regex found no token, `valueAmount[0]` dereferences `null` and the transform
throws; `none` models that crash. -/
def cryptoMoneyCoerce (s : String) : Option JVal :=
  if s = "" then some (JVal.num 0)
  else
    match numTokens s with
    | [] => none
    | tok :: _ => some (parseFloatJ (removeFirstComma tok))

/-- The whole crypto `on_record` transform (revolutConverter.ts:93-114).
`none` models the callback throwing on the value/fees dereference. -/
def cryptoTransform (r : CryptoRawRecord) : Option RevolutRecord :=
  match cryptoMoneyCoerce r.value, cryptoMoneyCoerce r.fees with
  | some v, some f =>
    some { date := r.date
           type := cryptoMapType r.type
           ticker := none
           symbol := r.symbol
           currency := detectCurrency r.price
           quantity := parseFloatJ r.quantity
           pricePerShare := JVal.undef
           totalAmount := JVal.undef
           price := cryptoPriceCoerce r.price
           value := v
           fees := f }
  | _, _ => none

/-- `isIgnoredRecord` (revolutConverter.ts:31-35), on the record's type
text. -/
def ignoredRecordTypes : List String :=
  ["transfer from", "withdrawal", "top-up", "stake", "send", "receive"]

/-- `isIgnoredRecord` tests whether the lowercased type contains any ignored
substring. -/
def isIgnoredRecord (ty : String) : Bool :=
  ignoredRecordTypes.any (fun t => strContains (strToLower ty) t)

/-- Outcome of one `securityService.getSecurity` call: the service throws,
returns no match (falsy), or returns a security whose `symbol` matters to
the converter. -/
inductive LookupResult where
  | err : String → LookupResult
  | notFound : LookupResult
  | found : String → LookupResult
deriving DecidableEq, Repr

/-- The key passed to `getSecurity` (revolutConverter.ts:179):
`record.ticker ?? ` the `symbol-currency` template string. -/
def lookupKey (r : RevolutRecord) : String :=
  match r.ticker with
  | some t => t
  | none => r.symbol ++ "-" ++ r.currency

/-- One activity pushed onto `result.activities`. `accountId` (environment)
is external and identical on every activity; `orderType` carries the
`GhostfolioOrderType[record.type]` index (the enum source lives outside this
file's repository slice); `date` carries the raw record date (dayjs is
external). -/
structure ExportActivity where
  comment : String
  fee : JVal
  quantity : JVal
  orderType : String
  unitPrice : JVal
  currency : String
  dataSource : String
  date : String
  symbol : String
deriving DecidableEq, Repr

/-- The activity pushed for a fee row (revolutConverter.ts:158-169). -/
def feeActivity (r : RevolutRecord) : ExportActivity :=
  { comment := "Revolut " ++ strToLower r.type
    fee := jabs r.totalAmount
    quantity := JVal.num 1
    orderType := r.type
    unitPrice := JVal.num 0
    currency := r.currency
    dataSource := "MANUAL"
    date := r.date
    symbol := "Revolut " ++ strToLower r.type }

/-- The activity pushed for a matched security row
(revolutConverter.ts:196-218): dividends default quantity to 1 and take
`|totalAmount ?? 1|` as unit price; every other type takes the quantity
directly and `pricePerShare ?? price` as unit price. -/
def securityActivity (r : RevolutRecord) (sec : String) : ExportActivity :=
  { comment := ""
    fee := JVal.num 0
    quantity := if r.type = "dividend" then jnullish r.quantity (JVal.num 1) else r.quantity
    orderType := r.type
    unitPrice :=
      if r.type = "dividend" then jabs (jnullish r.totalAmount (JVal.num 1))
      else jnullish r.pricePerShare r.price
    currency := r.currency
    dataSource := "YAHOO"
    date := r.date
    symbol := sec }

/-- The single outcome `processRevolutFile` delivers: exactly one of the two
continuations fires, `failure` for `errorCallback(Error(msg))`, `success`
for `successCallback(result)` with the accumulated activities. -/
inductive ProcessOutcome where
  | failure : String → ProcessOutcome
  | success : List ExportActivity → ProcessOutcome
deriving DecidableEq, Repr

/-- The row loop of `processRevolutFile` (revolutConverter.ts:143-225),
parameterised by the lookup service (key and currency determine the
outcome): ignored rows are skipped, fee rows append their manual activity
without consulting the lookup, a throwing lookup aborts the whole run with
that error, a no-match lookup skips the row, a match appends the security
activity. -/
def processRecords (lookup : String → String → LookupResult) :
    List RevolutRecord → List ExportActivity → ProcessOutcome
  | [], acc => ProcessOutcome.success acc
  | r :: rs, acc =>
    if isIgnoredRecord r.type then processRecords lookup rs acc
    else if strToLower r.type = "fee" then
      processRecords lookup rs (acc ++ [feeActivity r])
    else
      match lookup (lookupKey r) r.currency with
      | LookupResult.err e => ProcessOutcome.failure e
      | LookupResult.notFound => processRecords lookup rs acc
      | LookupResult.found sec => processRecords lookup rs (acc ++ [securityActivity r sec])

/-- `processRevolutFile` (revolutConverter.ts:118-226): a tokenizer error
(`err` truthy), an undefined record list, or an empty one short-circuits to
the failure continuation with the composed parse message; otherwise the row
loop runs. -/
def processRevolutFile (lookup : String → String → LookupResult)
    (err : Option String) (records : Option (List RevolutRecord)) : ProcessOutcome :=
  match err with
  | some e => ProcessOutcome.failure ("An error ocurred while parsing! Details: " ++ e)
  | none =>
    match records with
    | none => ProcessOutcome.failure "An error ocurred while parsing!"
    | some [] => ProcessOutcome.failure "An error ocurred while parsing!"
    | some (r :: rs) => processRecords lookup (r :: rs) []

/-- What one row contributes to the activity sequence on a non-fatal run. -/
def rowActivity (lookup : String → String → LookupResult) (r : RevolutRecord) :
    Option ExportActivity :=
  if isIgnoredRecord r.type then none
  else if strToLower r.type = "fee" then some (feeActivity r)
  else
    match lookup (lookupKey r) r.currency with
    | LookupResult.err _ => none
    | LookupResult.notFound => none
    | LookupResult.found sec => some (securityActivity r sec)

/-- A row aborts the run exactly when it is neither ignored nor a fee and
its lookup throws. -/
def rowFatal (lookup : String → String → LookupResult) (r : RevolutRecord) : Bool :=
  !isIgnoredRecord r.type && !(strToLower r.type == "fee") &&
    (match lookup (lookupKey r) r.currency with
     | LookupResult.err _ => true
     | _ => false)

/-! Helper lemmas. -/

theorem numTokensAux_ne_nil (l : List Char) :
    ∀ acc : List Char, acc ≠ [] → numTokensAux acc l ≠ [] := by
  induction l with
  | nil =>
    intro acc h
    simp only [numTokensAux]
    rw [if_neg (by simpa using h)]
    exact List.cons_ne_nil _ _
  | cons c cs ih =>
    intro acc h
    simp only [numTokensAux]
    by_cases hc : isNumTokChar c
    case pos =>
      rw [if_pos hc]
      exact ih (c :: acc) (List.cons_ne_nil _ _)
    case neg =>
      rw [if_neg hc, if_neg (by simpa using h)]
      exact List.cons_ne_nil _ _

theorem numTokensAux_nil_iff (l : List Char) :
    numTokensAux [] l = [] ↔ l.any isNumTokChar = false := by
  induction l with
  | nil => simp [numTokensAux]
  | cons c cs ih =>
    simp only [numTokensAux, List.any_cons]
    by_cases hc : isNumTokChar c
    case pos =>
      rw [if_pos hc]
      simp only [hc, Bool.true_or]
      constructor
      · intro h
        exact absurd h (numTokensAux_ne_nil cs [c] (List.cons_ne_nil _ _))
      · intro h
        exact absurd h (by simp)
    case neg =>
      rw [if_neg hc, if_pos (by simp)]
      simp only [hc, Bool.false_or]
      exact ih

theorem numTokens_nil_iff (s : String) :
    numTokens s = [] ↔ s.data.any isNumTokChar = false :=
  numTokensAux_nil_iff s.data

theorem takeWhile_digits_append (t : List Char) (b : Char) (hb : b.isDigit = false) :
    ∀ l : List Char, (∀ c ∈ l, c.isDigit = true) →
      (l ++ b :: t).takeWhile Char.isDigit = l := by
  intro l
  induction l with
  | nil =>
    intro _
    simp [List.takeWhile_cons, hb]
  | cons c cs ih =>
    intro h
    have hc : c.isDigit = true := h c (List.mem_cons_self c cs)
    simp only [List.cons_append, List.takeWhile_cons, hc, if_true]
    rw [ih (fun x hx => h x (List.mem_cons_of_mem c hx))]

theorem dropWhile_digits_append (t : List Char) (b : Char) (hb : b.isDigit = false) :
    ∀ l : List Char, (∀ c ∈ l, c.isDigit = true) →
      (l ++ b :: t).dropWhile Char.isDigit = b :: t := by
  intro l
  induction l with
  | nil =>
    intro _
    simp [List.dropWhile_cons, hb]
  | cons c cs ih =>
    intro h
    have hc : c.isDigit = true := h c (List.mem_cons_self c cs)
    simp only [List.cons_append, List.dropWhile_cons, hc, if_true]
    exact ih (fun x hx => h x (List.mem_cons_of_mem c hx))

theorem isJsWs_of_digit (c : Char) (h : c.isDigit = true) : isJsWs c = false := by
  simp only [isJsWs, Bool.or_eq_false_iff, beq_eq_false_iff_ne]
  refine ⟨⟨⟨?_, ?_⟩, ?_⟩, ?_⟩ <;>
    { intro e; subst e; exact absurd h (by decide) }

theorem rfcList_append (v : List Char) :
    ∀ u : List Char, ',' ∉ u → rfcList (u ++ ',' :: v) = u ++ v := by
  intro u
  induction u with
  | nil => intro _; simp [rfcList]
  | cons c cs ih =>
    intro h
    have hc : c ≠ ',' := fun e => h (e ▸ List.mem_cons_self c cs)
    simp only [List.cons_append, rfcList, if_neg hc, List.append_eq]
    rw [ih (fun hm => h (List.mem_cons_of_mem c hm))]

theorem parseFloatQ_stops_at_comma (t : List Char) (l : List Char)
    (hne : l ≠ []) (hdig : ∀ c ∈ l, c.isDigit = true) :
    parseFloatQ ((l ++ ',' :: t).asString) = some ((digitsToNat l : ℚ)) := by
  obtain ⟨c, l2, rfl⟩ : ∃ c l2, l = c :: l2 := by
    cases l with
    | nil => exact absurd rfl hne
    | cons c l2 => exact ⟨c, l2, rfl⟩
  have hc : c.isDigit = true := hdig c (List.mem_cons_self c l2)
  have hcomma : (',' : Char).isDigit = false := by decide
  have htw := takeWhile_digits_append t ',' hcomma (c :: l2) hdig
  have hdw := dropWhile_digits_append t ',' hcomma (c :: l2) hdig
  have hcm : c ≠ '-' := by intro e; subst e; exact absurd hc (by decide)
  have hcp : c ≠ '+' := by intro e; subst e; exact absurd hc (by decide)
  show parseSigned ((c :: (l2 ++ ',' :: t)).dropWhile isJsWs) = _
  rw [List.dropWhile_cons, if_neg (by simp [isJsWs_of_digit c hc])]
  simp only [parseSigned, if_neg hcm, if_neg hcp]
  rw [← List.cons_append]
  simp only [parseUnsigned, htw, hdw]
  rw [if_neg (by decide : ¬((',' : Char) = '.'))]
  rw [if_neg (by simp : ¬((c :: l2).isEmpty = true))]
  simp only [Option.map_some', parseExpPart]
  rw [if_neg (by decide : ¬((',' : Char) = 'e' ∨ (',' : Char) = 'E'))]
  rw [zpow_zero, mul_one]

theorem processRecords_nofatal (lookup : String → String → LookupResult) :
    ∀ (rs : List RevolutRecord) (acc : List ExportActivity),
      (∀ r ∈ rs, rowFatal lookup r = false) →
      processRecords lookup rs acc =
        ProcessOutcome.success (acc ++ rs.filterMap (rowActivity lookup)) := by
  intro rs
  induction rs with
  | nil => intro acc _; simp [processRecords]
  | cons r rs ih =>
    intro acc h
    have hr : rowFatal lookup r = false := h r (List.mem_cons_self r rs)
    have hrest : ∀ x ∈ rs, rowFatal lookup x = false :=
      fun x hx => h x (List.mem_cons_of_mem r hx)
    by_cases hig : isIgnoredRecord r.type
    case pos =>
      simp only [processRecords, if_pos hig, List.filterMap_cons, rowActivity]
      rw [ih acc hrest]
    case neg =>
      by_cases hfee : strToLower r.type = "fee"
      case pos =>
        simp only [processRecords, if_neg hig, if_pos hfee, List.filterMap_cons, rowActivity]
        rw [ih (acc ++ [feeActivity r]) hrest]
        simp [List.append_assoc]
      case neg =>
        cases hl : lookup (lookupKey r) r.currency with
        | err e =>
          exfalso
          simp [rowFatal, hig, hfee, hl] at hr
        | notFound =>
          simp only [processRecords, if_neg hig, if_neg hfee, hl,
            List.filterMap_cons, rowActivity]
          rw [ih acc hrest]
        | found sec =>
          simp only [processRecords, if_neg hig, if_neg hfee, hl,
            List.filterMap_cons, rowActivity]
          rw [ih (acc ++ [securityActivity r sec]) hrest]
          simp [List.append_assoc]

theorem processRecords_fatal (lookup : String → String → LookupResult) :
    ∀ pre : List RevolutRecord, (∀ x ∈ pre, rowFatal lookup x = false) →
      ∀ (r : RevolutRecord) (rest : List RevolutRecord) (e : String)
        (acc : List ExportActivity),
        isIgnoredRecord r.type = false → ¬ strToLower r.type = "fee" →
        lookup (lookupKey r) r.currency = LookupResult.err e →
        processRecords lookup (pre ++ r :: rest) acc = ProcessOutcome.failure e := by
  intro pre
  induction pre with
  | nil =>
    intro _ r rest e acc hig hfee hl
    have hig2 : ¬ isIgnoredRecord r.type = true := by simp [hig]
    simp only [List.nil_append, processRecords, if_neg hig2, if_neg hfee, hl]
  | cons x pre ih =>
    intro h r rest e acc hig hfee hl
    have hx : rowFatal lookup x = false := h x (List.mem_cons_self x pre)
    have hpre : ∀ y ∈ pre, rowFatal lookup y = false :=
      fun y hy => h y (List.mem_cons_of_mem x hy)
    by_cases hxig : isIgnoredRecord x.type
    case pos =>
      simp only [List.cons_append, processRecords, if_pos hxig, List.append_eq]
      exact ih hpre r rest e acc hig hfee hl
    case neg =>
      by_cases hxfee : strToLower x.type = "fee"
      case pos =>
        simp only [List.cons_append, processRecords, if_neg hxig, if_pos hxfee,
          List.append_eq]
        exact ih hpre r rest e (acc ++ [feeActivity x]) hig hfee hl
      case neg =>
        cases hxl : lookup (lookupKey x) x.currency with
        | err e2 =>
          exfalso
          simp [rowFatal, hxig, hxfee, hxl] at hx
        | notFound =>
          simp only [List.cons_append, processRecords, if_neg hxig, if_neg hxfee, hxl,
            List.append_eq]
          exact ih hpre r rest e acc hig hfee hl
        | found sec =>
          simp only [List.cons_append, processRecords, if_neg hxig, if_neg hxfee, hxl,
            List.append_eq]
          exact ih hpre r rest e (acc ++ [securityActivity x sec]) hig hfee hl

/-! Concrete fixtures used by witnesses and counterexamples. -/

/-- A lookup service that resolves every key. -/
def lookupAlwaysAAPL : String → String → LookupResult := fun _ _ => LookupResult.found "AAPL"

/-- A lookup service that throws on every call. -/
def lookupErrBoom : String → String → LookupResult := fun _ _ => LookupResult.err "boom"

/-- A lookup service with one unresolvable ticker. -/
def lookupMixed : String → String → LookupResult :=
  fun k _ => if k = "NOPE" then LookupResult.notFound else LookupResult.found "AAPL"

/-- An invest record whose (uncoerced) type is an ignored withdrawal. -/
def wdRec : RevolutRecord :=
  { date := "2023-01-01", type := "Withdrawal", ticker := some "AAPL", symbol := "AAPL",
    currency := "USD", quantity := JVal.num 1, pricePerShare := JVal.num 2,
    totalAmount := JVal.num 2, price := JVal.undef, value := JVal.undef, fees := JVal.undef }

/-- An invest fee record. -/
def feeRecSample : RevolutRecord :=
  { date := "2023-01-02", type := "fee", ticker := some "X", symbol := "X",
    currency := "USD", quantity := JVal.num 3, pricePerShare := JVal.num 4,
    totalAmount := JVal.num (-5), price := JVal.undef, value := JVal.undef,
    fees := JVal.undef }

/-- An invest dividend record. -/
def divRecSample : RevolutRecord :=
  { date := "2023-01-03", type := "dividend", ticker := some "AAPL", symbol := "AAPL",
    currency := "USD", quantity := JVal.num 2, pricePerShare := JVal.num 7,
    totalAmount := JVal.num (-9), price := JVal.undef, value := JVal.undef,
    fees := JVal.undef }

/-- An invest buy record. -/
def buyRecSample : RevolutRecord :=
  { date := "2023-01-04", type := "buy", ticker := some "AAPL", symbol := "AAPL",
    currency := "USD", quantity := JVal.num 10, pricePerShare := JVal.num 150,
    totalAmount := JVal.num 1500, price := JVal.undef, value := JVal.undef,
    fees := JVal.undef }

/-- An invest buy record whose ticker no provider resolves. -/
def noMatchRec : RevolutRecord :=
  { date := "2023-01-05", type := "buy", ticker := some "NOPE", symbol := "NOPE",
    currency := "USD", quantity := JVal.num 1, pricePerShare := JVal.num 1,
    totalAmount := JVal.num 1, price := JVal.undef, value := JVal.undef,
    fees := JVal.undef }

/-! Claim theorems. -/

/-- The invest action-label rules as the spec words them: an ordered list of
(substring alternatives, canonical kind) pairs. -/
def investActionRules : List (List String × String) :=
  [(["buy", "stock split"], "buy"), (["sell"], "sell"),
   (["dividend"], "dividend"), (["fee"], "fee")]

/-- First-match-wins evaluation of an ordered rule list against a
(lowercased) label. -/
def applyFirstRule (v : String) : List (List String × String) → Option String
  | [] => none
  | (pats, out) :: rest =>
    if pats.any (fun p => strContains v p) then some out else applyFirstRule v rest

/-- The spec-side reading of the invest action mapping: evaluate the ordered
rule list on the lowercased label, pass the label through unchanged when no
rule matches. -/
def mapActionTypeSpec (v : String) : String :=
  (applyFirstRule (strToLower v) investActionRules).getD v

/-- C7: the invest action-label coercion is the first-match-wins evaluation
of the ordered rule list (buy/stock split → buy, then sell, then dividend,
then fee, each matched case-insensitively by substring), unmatched labels
pass through unchanged, and the mapping is idempotent on the four canonical
kinds. -/
theorem claim_C7_action_mapping :
    (∀ v, mapActionType v = mapActionTypeSpec v) ∧
    mapActionType "buy" = "buy" ∧ mapActionType "sell" = "sell" ∧
    mapActionType "dividend" = "dividend" ∧ mapActionType "fee" = "fee" ∧
    (∀ v, strContains (strToLower v) "buy" = false → strContains (strToLower v) "stock split" = false →
      strContains (strToLower v) "sell" = false → strContains (strToLower v) "dividend" = false →
      strContains (strToLower v) "fee" = false → mapActionType v = v) := by
  refine ⟨?_, by decide, by decide, by decide, by decide, ?_⟩
  · intro v
    cases hb : strContains (strToLower v) "buy" <;>
      cases hsp : strContains (strToLower v) "stock split" <;>
      cases hse : strContains (strToLower v) "sell" <;>
      cases hd : strContains (strToLower v) "dividend" <;>
      cases hf : strContains (strToLower v) "fee" <;>
      simp [mapActionType, mapActionTypeSpec, applyFirstRule, investActionRules,
        hb, hsp, hse, hd, hf]
  · intro v h1 h2 h3 h4 h5
    simp [mapActionType, h1, h2, h3, h4, h5]

/-- C7 witness: an unmatched label ("hold") passes through unchanged. -/
theorem claim_C7_action_mapping_witness : mapActionType "hold" = "hold" :=
  claim_C7_action_mapping.2.2.2.2.2 "hold" (by decide) (by decide) (by decide)
    (by decide) (by decide)

/-- C8: currency detection strips every digit/dot/comma run, trims,
uppercases, maps €→EUR, $→USD, £→GBP, SEK→SEK, and defaults everything else
(including the empty remainder) to EUR; the result is always one of the four
codes. -/
theorem claim_C8_currency_detection :
    detectCurrency "€100" = "EUR" ∧ detectCurrency "$50" = "USD" ∧
    detectCurrency "£20" = "GBP" ∧ detectCurrency "100 SEK" = "SEK" ∧
    detectCurrency "100" = "EUR" ∧
    (∀ s, detectCurrency s = "EUR" ∨ detectCurrency s = "USD" ∨
      detectCurrency s = "GBP" ∨ detectCurrency s = "SEK") ∧
    (∀ s, strToUpper (strTrim ((s.data.filter (fun c => !isNumTokChar c)).asString)) ≠ "€" →
      strToUpper (strTrim ((s.data.filter (fun c => !isNumTokChar c)).asString)) ≠ "$" →
      strToUpper (strTrim ((s.data.filter (fun c => !isNumTokChar c)).asString)) ≠ "£" →
      strToUpper (strTrim ((s.data.filter (fun c => !isNumTokChar c)).asString)) ≠ "SEK" →
      detectCurrency s = "EUR") := by
  refine ⟨by decide, by decide, by decide, by decide, by decide, ?_, ?_⟩
  · intro s
    simp only [detectCurrency]
    split_ifs <;> simp
  · intro s h1 h2 h3 h4
    simp only [detectCurrency]
    rw [if_neg h1, if_neg h2, if_neg h3, if_neg h4]

/-- C8 witness: an unrecognized remainder falls back to EUR. -/
theorem claim_C8_currency_detection_witness : detectCurrency "100 kr" = "EUR" :=
  claim_C8_currency_detection.2.2.2.2.2.2 "100 kr" (by decide) (by decide) (by decide)
    (by decide)

/-- C2: a row whose coerced type lowercases to "fee" is never ignored, and
its processing step appends exactly the one manual fee activity — quantity
1, unit price 0, fee the absolute total amount, dataSource MANUAL,
symbol/comment the "Revolut fee" broker+type label — for EVERY lookup
service, i.e. the step never consults the lookup. -/
theorem claim_C2_fee_rows :
    ∀ (lookup : String → String → LookupResult) (r : RevolutRecord)
      (rs : List RevolutRecord) (acc : List ExportActivity),
      strToLower r.type = "fee" →
      isIgnoredRecord r.type = false ∧
      processRecords lookup (r :: rs) acc = processRecords lookup rs (acc ++ [feeActivity r]) ∧
      rowActivity lookup r = some (feeActivity r) ∧
      (feeActivity r).quantity = JVal.num 1 ∧
      (feeActivity r).unitPrice = JVal.num 0 ∧
      (feeActivity r).fee = jabs r.totalAmount ∧
      (feeActivity r).dataSource = "MANUAL" ∧
      (feeActivity r).symbol = "Revolut " ++ strToLower r.type ∧
      (feeActivity r).comment = "Revolut " ++ strToLower r.type := by
  intro lookup r rs acc h
  have hig : isIgnoredRecord r.type = false := by
    simp only [isIgnoredRecord, ignoredRecordTypes, h]
    decide
  have hig2 : ¬ isIgnoredRecord r.type = true := by simp [hig]
  refine ⟨hig, ?_, ?_, rfl, rfl, rfl, rfl, rfl, rfl⟩
  · simp only [processRecords, if_neg hig2, if_pos h]
  · simp only [rowActivity, if_neg hig2, if_pos h]

/-- C2 witness: the fee step evaluated on a concrete fee record. -/
theorem claim_C2_fee_rows_witness :
    isIgnoredRecord feeRecSample.type = false ∧
    processRecords lookupAlwaysAAPL (feeRecSample :: []) [] =
      processRecords lookupAlwaysAAPL [] ([] ++ [feeActivity feeRecSample]) ∧
    rowActivity lookupAlwaysAAPL feeRecSample = some (feeActivity feeRecSample) ∧
    (feeActivity feeRecSample).quantity = JVal.num 1 ∧
    (feeActivity feeRecSample).unitPrice = JVal.num 0 ∧
    (feeActivity feeRecSample).fee = jabs feeRecSample.totalAmount ∧
    (feeActivity feeRecSample).dataSource = "MANUAL" ∧
    (feeActivity feeRecSample).symbol = "Revolut " ++ strToLower feeRecSample.type ∧
    (feeActivity feeRecSample).comment = "Revolut " ++ strToLower feeRecSample.type :=
  claim_C2_fee_rows lookupAlwaysAAPL feeRecSample [] [] (by decide)

/-- C6: for a non-ignored, non-fee record whose lookup finds a match, the
step appends exactly the security activity, whose dataSource is YAHOO and
symbol comes from the resolved security; a dividend takes its quantity from
the row defaulting to 1 when absent and its unit price as the absolute
`totalAmount ?? 1`, while buy/sell take quantity directly and unit price as
`pricePerShare ?? price`. -/
theorem claim_C6_matched_quantities :
    ∀ (lookup : String → String → LookupResult) (r : RevolutRecord)
      (rs : List RevolutRecord) (acc : List ExportActivity) (sec : String),
      isIgnoredRecord r.type = false →
      ¬ strToLower r.type = "fee" →
      lookup (lookupKey r) r.currency = LookupResult.found sec →
      processRecords lookup (r :: rs) acc =
        processRecords lookup rs (acc ++ [securityActivity r sec]) ∧
      (securityActivity r sec).dataSource = "YAHOO" ∧
      (securityActivity r sec).symbol = sec ∧
      (r.type = "dividend" →
        (securityActivity r sec).quantity = jnullish r.quantity (JVal.num 1) ∧
        (securityActivity r sec).unitPrice = jabs (jnullish r.totalAmount (JVal.num 1))) ∧
      (r.type = "buy" ∨ r.type = "sell" →
        (securityActivity r sec).quantity = r.quantity ∧
        (securityActivity r sec).unitPrice = jnullish r.pricePerShare r.price) := by
  intro lookup r rs acc sec hig hfee hl
  have hig2 : ¬ isIgnoredRecord r.type = true := by simp [hig]
  refine ⟨?_, rfl, rfl, ?_, ?_⟩
  · simp only [processRecords, if_neg hig2, if_neg hfee, hl]
  · intro hd
    constructor <;> simp [securityActivity, hd]
  · intro hbs
    have hnd : ¬ r.type = "dividend" := by
      rcases hbs with h | h <;> rw [h] <;> decide
    constructor <;> simp [securityActivity, hnd]

/-- C6 witness: the matched-row step on a concrete dividend record. -/
theorem claim_C6_matched_quantities_witness :
    processRecords lookupAlwaysAAPL (divRecSample :: []) [] =
      processRecords lookupAlwaysAAPL [] ([] ++ [securityActivity divRecSample "AAPL"]) ∧
    (securityActivity divRecSample "AAPL").dataSource = "YAHOO" ∧
    (securityActivity divRecSample "AAPL").symbol = "AAPL" ∧
    (divRecSample.type = "dividend" →
      (securityActivity divRecSample "AAPL").quantity =
        jnullish divRecSample.quantity (JVal.num 1) ∧
      (securityActivity divRecSample "AAPL").unitPrice =
        jabs (jnullish divRecSample.totalAmount (JVal.num 1))) ∧
    (divRecSample.type = "buy" ∨ divRecSample.type = "sell" →
      (securityActivity divRecSample "AAPL").quantity = divRecSample.quantity ∧
      (securityActivity divRecSample "AAPL").unitPrice =
        jnullish divRecSample.pricePerShare divRecSample.price) :=
  claim_C6_matched_quantities lookupAlwaysAAPL divRecSample [] [] "AAPL"
    (by decide) (by decide) (by decide)

/-- C1: a tokenizer error, an undefined record list or an empty record list
short-circuits to the failure continuation with the parse message; a lookup
error on the first non-ignored, non-fee row after any prefix of non-fatal
rows aborts the whole run with exactly that error, delivering no activity
list (failure and success outcomes are mutually exclusive by construction);
conversely an ignored row or a no-match lookup merely skips to the next
row. -/
theorem claim_C1_fatal_paths :
    (∀ (lookup : String → String → LookupResult) (e : String)
        (records : Option (List RevolutRecord)),
      processRevolutFile lookup (some e) records =
        ProcessOutcome.failure ("An error ocurred while parsing! Details: " ++ e)) ∧
    (∀ lookup : String → String → LookupResult,
      processRevolutFile lookup none none =
        ProcessOutcome.failure "An error ocurred while parsing!" ∧
      processRevolutFile lookup none (some []) =
        ProcessOutcome.failure "An error ocurred while parsing!") ∧
    (∀ (lookup : String → String → LookupResult) (pre : List RevolutRecord)
        (r : RevolutRecord) (rest : List RevolutRecord) (e : String)
        (acc : List ExportActivity),
      (∀ x ∈ pre, rowFatal lookup x = false) →
      isIgnoredRecord r.type = false →
      ¬ strToLower r.type = "fee" →
      lookup (lookupKey r) r.currency = LookupResult.err e →
      processRecords lookup (pre ++ r :: rest) acc = ProcessOutcome.failure e) ∧
    (∀ (e : String) (acts : List ExportActivity),
      ProcessOutcome.failure e ≠ ProcessOutcome.success acts) ∧
    (∀ (lookup : String → String → LookupResult) (r : RevolutRecord)
        (rs : List RevolutRecord) (acc : List ExportActivity),
      (isIgnoredRecord r.type = true →
        processRecords lookup (r :: rs) acc = processRecords lookup rs acc) ∧
      (isIgnoredRecord r.type = false → ¬ strToLower r.type = "fee" →
        lookup (lookupKey r) r.currency = LookupResult.notFound →
        processRecords lookup (r :: rs) acc = processRecords lookup rs acc)) := by
  refine ⟨?_, ?_, ?_, ?_, ?_⟩
  · intro lookup e records; rfl
  · intro lookup; exact ⟨rfl, rfl⟩
  · intro lookup pre r rest e acc hpre hig hfee hl
    exact processRecords_fatal lookup pre hpre r rest e acc hig hfee hl
  · intro e acts h; exact ProcessOutcome.noConfusion h
  · intro lookup r rs acc
    constructor
    · intro hig; simp only [processRecords, if_pos hig]
    · intro hig hfee hl
      have hig2 : ¬ isIgnoredRecord r.type = true := by simp [hig]
      simp only [processRecords, if_neg hig2, if_neg hfee, hl]

/-- C1 witness: after one non-fatal (ignored) row, a throwing lookup on a
buy row aborts with that very error. -/
theorem claim_C1_fatal_paths_witness :
    processRecords lookupErrBoom ([wdRec] ++ buyRecSample :: []) [] =
      ProcessOutcome.failure "boom" :=
  claim_C1_fatal_paths.2.2.1 lookupErrBoom [wdRec] buyRecSample [] "boom" []
    (by decide) (by decide) (by decide) (by decide)

/-- C9: on a run with no fatal row the outcome is success with exactly the
in-order `filterMap` of the per-row contributions — so activity order is
input row order restricted to contributing rows — and ignored rows and
no-match rows contribute nothing. -/
theorem claim_C9_order_preservation :
    (∀ (lookup : String → String → LookupResult) (rs : List RevolutRecord),
      (∀ r ∈ rs, rowFatal lookup r = false) →
      processRecords lookup rs [] =
        ProcessOutcome.success (rs.filterMap (rowActivity lookup))) ∧
    (∀ (lookup : String → String → LookupResult) (r : RevolutRecord),
      isIgnoredRecord r.type = true → rowActivity lookup r = none) ∧
    (∀ (lookup : String → String → LookupResult) (r : RevolutRecord),
      isIgnoredRecord r.type = false → ¬ strToLower r.type = "fee" →
      lookup (lookupKey r) r.currency = LookupResult.notFound →
      rowActivity lookup r = none) ∧
    (∀ (lookup : String → String → LookupResult) (r : RevolutRecord)
        (rs : List RevolutRecord),
      (∀ x ∈ r :: rs, rowFatal lookup x = false) →
      processRevolutFile lookup none (some (r :: rs)) =
        ProcessOutcome.success ((r :: rs).filterMap (rowActivity lookup))) := by
  refine ⟨?_, ?_, ?_, ?_⟩
  · intro lookup rs h
    simpa using processRecords_nofatal lookup rs [] h
  · intro lookup r hig
    simp only [rowActivity, if_pos hig]
  · intro lookup r hig hfee hl
    have hig2 : ¬ isIgnoredRecord r.type = true := by simp [hig]
    simp only [rowActivity, if_neg hig2, if_neg hfee, hl]
  · intro lookup r rs h
    show processRecords lookup (r :: rs) [] = _
    simpa using processRecords_nofatal lookup (r :: rs) [] h

/-- C9 witness: a four-row run (ignored, fee, unresolved, buy) succeeds with
the in-order contributions. -/
theorem claim_C9_order_preservation_witness :
    processRecords lookupMixed [wdRec, feeRecSample, noMatchRec, buyRecSample] [] =
      ProcessOutcome.success
        ([wdRec, feeRecSample, noMatchRec, buyRecSample].filterMap (rowActivity lookupMixed)) :=
  claim_C9_order_preservation.1 lookupMixed [wdRec, feeRecSample, noMatchRec, buyRecSample]
    (by decide)

/-- A raw invest row whose original type text contains "withdrawal" but also
matches the dividend mapping rule. -/
def investWithdrawRaw : InvestRawRecord :=
  { date := "2023-01-01", type := "Dividend withdrawal", ticker := "AAPL", symbol := "AAPL",
    quantity := "1", pricePerShare := "2", totalAmount := "2", currency := "USD" }

/-- C3 counterexample: the original type "Dividend withdrawal" contains the
ignore substring "withdrawal", yet after the invest coercion (which runs
during parsing, before the ignore check) the type is "dividend", the record
is NOT ignored, and the pipeline performs the lookup and emits an activity
for it — refuting "skipped entirely ... evaluated against the original type
text". -/
theorem claim_C3_counterexample :
    strContains (strToLower "Dividend withdrawal") "withdrawal" = true ∧
    (investCoerce investWithdrawRaw).type = "dividend" ∧
    isIgnoredRecord (investCoerce investWithdrawRaw).type = false ∧
    processRevolutFile lookupAlwaysAAPL none (some [investCoerce investWithdrawRaw]) =
      ProcessOutcome.success [securityActivity (investCoerce investWithdrawRaw) "AAPL"] := by
  refine ⟨by decide, by decide, by decide, by decide⟩

/-- C3 amended: the ignore check is evaluated against the record's
POST-coercion type text; any record whose coerced type contains an ignore
substring is skipped entirely (no activity, no lookup), an invest
"Withdrawal" passes through the mapping unchanged and is indeed ignored,
but every crypto record survives the check because its coerced type is one
of buy/sell/dividend. -/
theorem claim_C3_amended :
    (∀ (lookup : String → String → LookupResult) (r : RevolutRecord)
        (rs : List RevolutRecord) (acc : List ExportActivity),
      isIgnoredRecord r.type = true →
      processRecords lookup (r :: rs) acc = processRecords lookup rs acc ∧
      rowActivity lookup r = none) ∧
    (mapActionType "Withdrawal" = "Withdrawal" ∧ isIgnoredRecord "Withdrawal" = true) ∧
    (∀ ty, isIgnoredRecord (cryptoMapType ty) = false) := by
  refine ⟨?_, ⟨by decide, by decide⟩, ?_⟩
  · intro lookup r rs acc hig
    exact ⟨by simp only [processRecords, if_pos hig],
      by simp only [rowActivity, if_pos hig]⟩
  · intro ty
    simp only [cryptoMapType]
    split_ifs <;> decide

/-- C3 amended witness: the skip step on a concrete ignored record. -/
theorem claim_C3_amended_witness :
    processRecords lookupAlwaysAAPL (wdRec :: []) [] = processRecords lookupAlwaysAAPL [] [] ∧
    rowActivity lookupAlwaysAAPL wdRec = none :=
  claim_C3_amended.1 lookupAlwaysAAPL wdRec [] [] (by decide)

/-- C4 counterexample: the invest numeric coercion does NOT strip commas
(parsing stops at the first comma, so "$1,234.5" becomes 1, not 1234.5) and
strips only the dollar sign, not other currency symbols ("€5" parses to
NaN, not 5). -/
theorem claim_C4_counterexample :
    investNumCoerce "$1,234.5" = JVal.num 1 ∧
    JVal.num 1 ≠ JVal.num ((2469 : ℚ) / 2) ∧
    investNumCoerce "€5" = JVal.nan ∧
    JVal.nan ≠ JVal.num 5 := by
  refine ⟨by decide, by decide, by decide, by decide⟩

/-- C4 amended: an empty numeric cell coerces to 0; any other cell has all
literal `$` characters removed and surrounding whitespace trimmed, then
parses as a float — commas are NOT removed and parsing stops at the first
comma, so "$12.50" → 12.50 but "$1,234.5" → 1; in general a digit run
followed by a comma parses to just the digit run's value. -/
theorem claim_C4_amended :
    investNumCoerce "" = JVal.num 0 ∧
    (∀ s, ¬ s = "" → investNumCoerce s = parseFloatJ (strTrim (stripDollar s))) ∧
    investNumCoerce "$12.50" = JVal.num ((25 : ℚ) / 2) ∧
    investNumCoerce "$1,234.5" = JVal.num 1 ∧
    (∀ (l t : List Char), l ≠ [] → (∀ c ∈ l, c.isDigit = true) →
      parseFloatQ ((l ++ ',' :: t).asString) = some ((digitsToNat l : ℚ))) := by
  refine ⟨by decide, ?_, by decide, by decide, ?_⟩
  · intro s h
    simp only [investNumCoerce, if_neg h]
  · intro l t hne hdig
    exact parseFloatQ_stops_at_comma t l hne hdig

/-- C4 amended witness: the coercion evaluated on a concrete non-empty cell,
and the comma-stop fact on a concrete digit run. -/
theorem claim_C4_amended_witness :
    investNumCoerce "$3" = parseFloatJ (strTrim (stripDollar "$3")) ∧
    parseFloatQ ((['1'] ++ ',' :: ['5']).asString) = some ((digitsToNat ['1'] : ℚ)) :=
  ⟨claim_C4_amended.2.1 "$3" (by decide),
   claim_C4_amended.2.2.2.2 ['1'] ['5'] (by decide) (by decide)⟩

/-- A raw crypto row whose money fields carry two comma groups. -/
def cryptoCommaRaw : CryptoRawRecord :=
  { date := "2023-02-01", type := "BUY", symbol := "BTC", quantity := "1",
    price := "$1,234,567.8", value := "1,234,567.8", fees := "" }

/-- C5 counterexample: on the value "1,234,567.8" the transform keeps 1234 —
only the FIRST comma of the leading numeric token is removed, so the parse
stops at the second comma — while removing all comma grouping, as the claim
states, would give 1234567.8. -/
theorem claim_C5_counterexample :
    (cryptoTransform cryptoCommaRaw).map (fun rec => rec.value) = some (JVal.num 1234) ∧
    parseFloatQ (("1,234,567.8".data.filter (fun c => !(c == ','))).asString) =
      some ((12345678 : ℚ) / 10) ∧
    JVal.num 1234 ≠ JVal.num ((12345678 : ℚ) / 10) := by
  refine ⟨by decide, by decide, by decide⟩

/-- C5 amended: when the crypto per-row transform completes, the produced
record has: type "buy"/"sell" exactly on an exact case-insensitive match and
"dividend" otherwise; currency from the Currency Detector on the price
field; price/value/fees equal to 0 for an empty source field, and otherwise
to the float parse of the field's leading numeric token with only its FIRST
comma removed (`rfcList` removes exactly the first comma); and quantity the
direct float parse. -/
theorem claim_C5_amended :
    (∀ (r : CryptoRawRecord) (rec : RevolutRecord), cryptoTransform r = some rec →
      (rec.type = "buy" ↔ strToLower r.type = "buy") ∧
      (rec.type = "sell" ↔ strToLower r.type = "sell") ∧
      (¬ strToLower r.type = "buy" → ¬ strToLower r.type = "sell" →
        rec.type = "dividend") ∧
      rec.currency = detectCurrency r.price ∧
      (r.price = "" → rec.price = JVal.num 0) ∧
      (¬ r.price = "" → rec.price =
        parseFloatJ (removeFirstComma ((numTokens r.price).headD "0"))) ∧
      (r.value = "" → rec.value = JVal.num 0) ∧
      (∀ tok toks, ¬ r.value = "" → numTokens r.value = tok :: toks →
        rec.value = parseFloatJ (removeFirstComma tok)) ∧
      (r.fees = "" → rec.fees = JVal.num 0) ∧
      (∀ tok toks, ¬ r.fees = "" → numTokens r.fees = tok :: toks →
        rec.fees = parseFloatJ (removeFirstComma tok)) ∧
      rec.quantity = parseFloatJ r.quantity) ∧
    (∀ u v : List Char, ',' ∉ u → rfcList (u ++ ',' :: v) = u ++ v) := by
  constructor
  · intro r rec h
    cases hv : cryptoMoneyCoerce r.value with
    | none => rw [cryptoTransform, hv] at h; exact absurd h (by simp)
    | some v =>
      cases hf : cryptoMoneyCoerce r.fees with
      | none => rw [cryptoTransform, hv, hf] at h; exact absurd h (by simp)
      | some f =>
        rw [cryptoTransform, hv, hf] at h
        injection h with h2
        subst h2
        refine ⟨?_, ?_, ?_, rfl, ?_, ?_, ?_, ?_, ?_, ?_, rfl⟩
        · by_cases hb : strToLower r.type = "buy"
          · simp [cryptoMapType, hb]
          · by_cases hs : strToLower r.type = "sell" <;> simp [cryptoMapType, hb, hs]
        · by_cases hb : strToLower r.type = "buy"
          · simp [cryptoMapType, hb]
          · by_cases hs : strToLower r.type = "sell" <;> simp [cryptoMapType, hb, hs]
        · intro hb hs
          simp [cryptoMapType, hb, hs]
        · intro hp
          simp [cryptoPriceCoerce, hp]
        · intro hp
          simp [cryptoPriceCoerce, hp]
        · intro hve
          rw [hve] at hv
          simp only [cryptoMoneyCoerce, if_pos rfl] at hv
          injection hv with hv2
          exact hv2.symm
        · intro tok toks hne htok
          simp only [cryptoMoneyCoerce, if_neg hne, htok] at hv
          injection hv with hv2
          exact hv2.symm
        · intro hfe
          rw [hfe] at hf
          simp only [cryptoMoneyCoerce, if_pos rfl] at hf
          injection hf with hf2
          exact hf2.symm
        · intro tok toks hne htok
          simp only [cryptoMoneyCoerce, if_neg hne, htok] at hf
          injection hf with hf2
          exact hf2.symm
  · intro u v h
    exact rfcList_append v u h

/-- A raw crypto row and the record its transform produces (price "€1,5"
keeps only the first comma removed: 15). -/
def cryptoSampleRaw : CryptoRawRecord :=
  { date := "2023-02-02", type := "BUY", symbol := "BTC", quantity := "3",
    price := "€1,5", value := "2", fees := "" }

/-- The record `cryptoTransform` produces from `cryptoSampleRaw`. -/
def cryptoSampleRec : RevolutRecord :=
  { date := "2023-02-02", type := "buy", ticker := none, symbol := "BTC",
    currency := "EUR", quantity := JVal.num 3, pricePerShare := JVal.undef,
    totalAmount := JVal.undef, price := JVal.num 15, value := JVal.num 2,
    fees := JVal.num 0 }

/-- C5 amended witness: the characterization applied to a concrete
completing row, and the first-comma fact on a concrete list. -/
theorem claim_C5_amended_witness :
    cryptoSampleRec.currency = detectCurrency cryptoSampleRaw.price ∧
    rfcList (['1'] ++ ',' :: ['2']) = ['1'] ++ ['2'] :=
  ⟨(claim_C5_amended.1 cryptoSampleRaw cryptoSampleRec (by decide)).2.2.2.1,
   claim_C5_amended.2 ['1'] ['2'] (by decide)⟩

/-- Relating the option-valued money coercion to the presence of a numeric
character: it succeeds exactly on an empty field or one holding at least one
digit, dot or comma. -/
theorem cryptoMoneyCoerce_isSome (s : String) :
    (cryptoMoneyCoerce s).isSome = true ↔ (s = "" ∨ s.data.any isNumTokChar = true) := by
  by_cases hs : s = ""
  · simp [cryptoMoneyCoerce, hs]
  · simp only [cryptoMoneyCoerce, if_neg hs]
    cases ht : numTokens s with
    | nil =>
      have hany : s.data.any isNumTokChar = false := (numTokens_nil_iff s).mp ht
      simp [hs, hany]
    | cons tok toks =>
      have hne : numTokens s ≠ [] := by rw [ht]; exact List.cons_ne_nil _ _
      have hany : s.data.any isNumTokChar = true := by
        cases hx : s.data.any isNumTokChar with
        | false => exact absurd ((numTokens_nil_iff s).mpr hx) hne
        | true => rfl
      simp [hs, hany]

/-- A crypto row with a non-empty value field holding no digit, dot or
comma: the value extraction dereferences an absent regex match. -/
def cryptoBadValueRaw : CryptoRawRecord :=
  { date := "2023-02-03", type := "sell", symbol := "BTC", quantity := "1",
    price := "", value := "abc", fees := "" }

/-- C10: the crypto transform completes exactly when each of the value and
fees fields is empty or contains a digit/dot/comma (so a non-empty such
field with no numeric character crashes the transform, e.g. value "abc"),
while the price field is safe for every string: changing it never affects
whether the transform completes. -/
theorem claim_C10_crypto_safety :
    (∀ r : CryptoRawRecord,
      ((cryptoTransform r).isSome = true ↔
        ((r.value = "" ∨ r.value.data.any isNumTokChar = true) ∧
         (r.fees = "" ∨ r.fees.data.any isNumTokChar = true)))) ∧
    (∀ (r : CryptoRawRecord) (p : String),
      (cryptoTransform { r with price := p }).isSome = (cryptoTransform r).isSome) ∧
    cryptoTransform cryptoBadValueRaw = none := by
  refine ⟨?_, ?_, by decide⟩
  · intro r
    have key : (cryptoTransform r).isSome =
        ((cryptoMoneyCoerce r.value).isSome && (cryptoMoneyCoerce r.fees).isSome) := by
      cases hv : cryptoMoneyCoerce r.value <;> cases hf : cryptoMoneyCoerce r.fees <;>
        simp [cryptoTransform, hv, hf]
    rw [key]
    constructor
    · intro h
      have h1 := (Bool.and_eq_true _ _).mp h
      exact ⟨(cryptoMoneyCoerce_isSome r.value).mp h1.1,
        (cryptoMoneyCoerce_isSome r.fees).mp h1.2⟩
    · intro h
      exact (Bool.and_eq_true _ _).mpr ⟨(cryptoMoneyCoerce_isSome r.value).mpr h.1,
        (cryptoMoneyCoerce_isSome r.fees).mpr h.2⟩
  · intro r p
    cases hv : cryptoMoneyCoerce r.value <;> cases hf : cryptoMoneyCoerce r.fees <;>
      simp [cryptoTransform, hv, hf]
